import Mathlib

/-!
Verification of the new-stadium-checkin repository core: the Google-Sheets
backed data operations (`lib/sheets/operations.ts`), the validation helpers
(`lib/validation.ts`), the PIN hashing helpers (`lib/pin.ts`), and the API
routes (`app/api/...`).  JavaScript strings are modelled as Lean `String`
(a list of characters); epoch-millisecond timestamps (`Date.now()`,
`new Date(x).getTime()`) are modelled as `Int`.  Generated UUIDs and "now"
are passed as explicit parameters.  Sheet rows are modelled as structures,
one field per column, which corresponds to well-formed rows (the TypeScript
parse helpers return `null` on rows that are too short; a missing PIN cell
is modelled by the empty string, exactly the value `row[7] || ''` yields).
-/

namespace NewStadium

/-- Character-level model of JavaScript `String.prototype.toLowerCase` for
the ASCII range (the repository compares ASCII email strings). -/
def lowerStr (s : String) : String := String.mk (s.data.map Char.toLower)

/-- Character-level model of JavaScript `String.prototype.trim`:
drop whitespace from both ends. -/
def trimChars (l : List Char) : List Char :=
  ((l.dropWhile Char.isWhitespace).reverse.dropWhile Char.isWhitespace).reverse

/-- JavaScript regex `\w`: ASCII letters, digits and underscore. -/
def isWordChar (c : Char) : Bool := c.isAlpha || c.isDigit || c = '_'

/-- Characters kept by the `replace(/[<>]/g, '')` step of `sanitizeInput`. -/
def noAngle (c : Char) : Bool := !(c = '<' || c = '>')

/-- The characters of the pattern of `replace(/javascript:/gi, '')`. -/
def jsPattern : List Char := "javascript:".data

/-- One left-to-right pass of `replace(/javascript:/gi, '')`.  In state
`skip+1` the scanner is inside an already-matched occurrence and drops the
character; in state `0` it tests for a case-insensitive match of
`javascript:` (11 characters) at the current position, dropping the head and
entering skip state `10` on a match, as the JavaScript engine resumes
scanning after the matched text. -/
def removeJsGo : Nat → List Char → List Char
  | _, [] => []
  | skip + 1, _ :: cs => removeJsGo skip cs
  | 0, c :: cs =>
    if ((c :: cs).take 11).map Char.toLower = jsPattern then
      removeJsGo 10 cs
    else
      c :: removeJsGo 0 cs

/-- One left-to-right pass of `replace(/on\w+=/gi, '')`: a match is `o`/`O`,
`n`/`N`, a maximal nonempty run of word characters, then `=` (a shorter run
cannot match because the character after it is a word character, not `=`).
On a match the scanner drops the whole match and resumes after the `=`. -/
def removeOnGo : Nat → List Char → List Char
  | skip + 1, _ :: cs => removeOnGo skip cs
  | _, [] => []
  | 0, [c] => [c]
  | 0, c1 :: c2 :: rest =>
    if c1.toLower = 'o' ∧ c2.toLower = 'n' ∧ rest.takeWhile isWordChar ≠ [] ∧
        (rest.dropWhile isWordChar).head? = some '=' then
      removeOnGo ((rest.takeWhile isWordChar).length + 2) (c2 :: rest)
    else
      c1 :: removeOnGo 0 (c2 :: rest)

/-- Character-level body of `sanitizeInput` (lib/validation.ts): trim, then
remove angle brackets, then the `javascript:` scheme, then `on*=` patterns. -/
def sanitizeChars (l : List Char) : List Char :=
  removeOnGo 0 (removeJsGo 0 ((trimChars l).filter noAngle))

/-- Model of `sanitizeInput` (lib/validation.ts):
`input.trim().replace(/[<>]/g, '').replace(/javascript:/gi, '').replace(/on\w+=/gi, '')`. -/
def sanitizeInput (s : String) : String := String.mk (sanitizeChars s.data)

/-- JavaScript `String.prototype.split(sep)` for a single-character
separator, accumulator-style scan. -/
def splitCharGo (sep : Char) : List Char → List Char → List (List Char)
  | acc, [] => [acc.reverse]
  | acc, c :: cs =>
    if c = sep then acc.reverse :: splitCharGo sep [] cs
    else splitCharGo sep (c :: acc) cs

/-- JavaScript `s.split(sep)` (single-character separator) on strings. -/
def splitChar (sep : Char) (s : String) : List String :=
  (splitCharGo sep [] s.data).map String.mk

/-- The disciplines cell of a sheet row, parsed as in `parseUserRow` /
`parseVisitRow`: `row[i] ? row[i].split(',') : []`. -/
def splitDisc (s : String) : List String :=
  if s = "" then [] else splitChar ',' s

/-- JavaScript `Array.prototype.join(sep)`. -/
def joinStr (sep : String) : List String → String
  | [] => ""
  | [s] => s
  | s :: t :: rest => s ++ sep ++ joinStr sep (t :: rest)

/-- The `joinStr` join at the character level, for a single-character separator. -/
def joinChars (sep : Char) : List (List Char) → List Char
  | [] => []
  | [x] => x
  | x :: y :: rest => x ++ sep :: joinChars sep (y :: rest)

-- Basic sanitizer facts used throughout.

theorem removeJsGo_sublist : ∀ (l : List Char) (n : Nat), List.Sublist (removeJsGo n l) l := by
  intro l
  induction l with
  | nil => intro n; cases n <;> simp [removeJsGo]
  | cons c cs ih =>
    intro n
    cases n with
    | zero =>
      rw [removeJsGo]
      split
      · exact (ih 10).trans (List.sublist_cons_self c cs)
      · exact (ih 0).cons₂ c
    | succ k => exact (ih k).trans (List.sublist_cons_self c cs)

theorem removeOnGo_sublist : ∀ (l : List Char) (n : Nat), List.Sublist (removeOnGo n l) l := by
  intro l
  induction l with
  | nil => intro n; cases n <;> simp [removeOnGo]
  | cons c cs ih =>
    intro n
    cases n with
    | zero =>
      cases cs with
      | nil => simp [removeOnGo]
      | cons c2 rest =>
        rw [removeOnGo]
        split
        · exact (ih _).trans (List.sublist_cons_self c (c2 :: rest))
        · exact (ih 0).cons₂ c
    | succ k => exact (ih k).trans (List.sublist_cons_self c cs)

theorem trimChars_sublist (l : List Char) : List.Sublist (trimChars l) l := by
  have h1 : List.Sublist (l.dropWhile Char.isWhitespace) l := List.dropWhile_sublist _
  have h2 : List.Sublist ((l.dropWhile Char.isWhitespace).reverse.dropWhile Char.isWhitespace)
      (l.dropWhile Char.isWhitespace).reverse := List.dropWhile_sublist _
  have h3 := h2.reverse
  simp only [List.reverse_reverse] at h3
  exact (h3.trans h1)

theorem sanitizeChars_sublist (l : List Char) :
    List.Sublist (sanitizeChars l) ((trimChars l).filter noAngle) :=
  (removeOnGo_sublist _ 0).trans (removeJsGo_sublist _ 0)

theorem sanitizeChars_sublist_self (l : List Char) : List.Sublist (sanitizeChars l) l :=
  ((sanitizeChars_sublist l).trans (List.filter_sublist _)).trans (trimChars_sublist l)

theorem sanitizeChars_length_le (l : List Char) : (sanitizeChars l).length ≤ l.length :=
  (sanitizeChars_sublist_self l).length_le

theorem sanitizeInput_length_le (s : String) : (sanitizeInput s).length ≤ s.length :=
  sanitizeChars_length_le s.data

theorem sanitizeChars_no_angle (l : List Char) (c : Char) (hc : c ∈ sanitizeChars l) :
    noAngle c = true := by
  have := (sanitizeChars_sublist l).subset hc
  exact List.of_mem_filter this

/-! ## Data model: sheet rows

`SHEETS.USERS` columns: ID, EMAIL, NAME, WORKPLACE, DISCIPLINES, CREATED_AT,
UPDATED_AT, PIN (`parseUserRow`); `SHEETS.VISITS` columns: ID, USER_ID,
TIMESTAMP, REASON, DISCIPLINES (`parseVisitRow`).  The DISCIPLINES cells hold
the comma-joined list exactly as the sheet does; timestamp cells are
abstracted to epoch milliseconds. -/

structure UserRow where
  id : String
  email : String
  name : String
  workplace : String
  disciplines : String
  created_at : Int
  updated_at : Int
  pin : String
deriving DecidableEq

structure VisitRow where
  id : String
  user_id : String
  time : Int
  reason : String
  disciplines : String
deriving DecidableEq

/-- Outcome of `registerUser`: `{success: true, userId}` or
`{success: false, error}`. -/
inductive RegOutcome where
  | ok (userId : String)
  | err (msg : String)
deriving DecidableEq

/-- Outcome of `checkInUser`: `{success: true}` or `{success: false, error}`. -/
inductive CheckInOutcome where
  | ok
  | err (msg : String)
deriving DecidableEq

/-- Outcome of `authenticateUser`: `{success: true, user}` or
`{success: false, error}`. -/
inductive AuthOutcome where
  | ok (u : UserRow)
  | err (msg : String)
deriving DecidableEq

/-- Model of `registerUser` (lib/sheets/operations.ts).  `newId` models the fresh
`uuidv4()`, `now` the ISO timestamp written into CREATED_AT / UPDATED_AT.
Returns the outcome together with the resulting USERS sheet (the sheet is
unchanged on failure, `appendToSheet` adds one row on success).  The stored
PIN cell is `data.pin` verbatim ("Store PIN in plaintext for admin
recovery"). -/
def registerUser (users : List UserRow) (newId : String) (now : Int)
    (email name workplace pin : String) (disciplines : List String) :
    RegOutcome × List UserRow :=
  let sanitizedEmail := sanitizeInput (lowerStr email)
  let sanitizedName := sanitizeInput name
  let sanitizedWorkplace := sanitizeInput workplace
  if users.any (fun row => decide (row.email = sanitizedEmail)) then
    (.err "Email already registered", users)
  else
    (.ok newId,
      users ++ [{ id := newId, email := sanitizedEmail, name := sanitizedName,
                  workplace := sanitizedWorkplace, disciplines := joinStr "," disciplines,
                  created_at := now, updated_at := now, pin := pin }])

/-- Model of `authenticateUser` (lib/sheets/operations.ts).  The `!user || !user.pin`
branch is modelled by an empty PIN cell (a row short of the PIN column parses
to `pin = ''` via `row[7] || ''`).  PIN comparison is plaintext string
equality. -/
def authenticateUser (users : List UserRow) (email pin : String) : AuthOutcome :=
  let sanitizedEmail := sanitizeInput (lowerStr email)
  match users.find? (fun row => decide (row.email = sanitizedEmail)) with
  | none => .err "Account not found. Please register first."
  | some user =>
    if user.pin = "" then .err "Account exists but has no PIN. Please contact support."
    else if pin ≠ user.pin then .err "Incorrect PIN. Please try again."
    else .ok user

/-- The lookup `userRows.find(row => row[0] === data.userId)` in `checkInUser`. -/
def findUserRow (users : List UserRow) (userId : String) : Option UserRow :=
  users.find? (fun row => decide (row.id = userId))

/-- The duplicate-suppression scan of `checkInUser`: some visit row of this
user has `new Date(row[2]).getTime() > Date.now() - 60 * 1000`. -/
def hasRecentVisit (visits : List VisitRow) (userId : String) (now : Int) : Bool :=
  visits.any (fun row => decide (row.user_id = userId ∧ now - 60 * 1000 < row.time))

/-- Model of `checkInUser` (lib/sheets/operations.ts): sanitize the reason, look the
user up by id, refuse when a visit by the same user lies within the last
60 seconds, otherwise append one visit row carrying a snapshot of the user's
disciplines.  `newId` models `uuidv4()`, `now` both `Date.now()` and the new
visit's timestamp.  Returns the outcome and the resulting VISITS sheet. -/
def checkInUser (users : List UserRow) (visits : List VisitRow) (newId : String)
    (now : Int) (userId reason : String) : CheckInOutcome × List VisitRow :=
  let sanitizedReason := sanitizeInput reason
  match findUserRow users userId with
  | none => (.err "User not found", visits)
  | some user =>
    if hasRecentVisit visits userId now then
      (.err "You have already checked in within the last minute", visits)
    else
      (.ok,
        visits ++ [{ id := newId, user_id := userId, time := now,
                     reason := sanitizedReason,
                     disciplines := joinStr "," (splitDisc user.disciplines) }])

/-! ## API routes -/

/-- Response of `POST /api/register` (app/api/register/route.ts):
`ok` is the 200 body, `err` a 400 body. -/
inductive RegResponse where
  | ok (userId : String)
  | err (msg : String)
deriving DecidableEq

/-- The route PIN checks: length 4 and decimal digits only (the test of the four-digit regular expression together with the length comparison). -/
def pinWellFormed (pin : String) : Bool :=
  pin.length = 4 && pin.data.all Char.isDigit

/-- Model of `POST /api/register`: requires all fields present and a nonempty
disciplines array (`!email || !name || !workplace || !pin || !disciplines ||
disciplines.length === 0`), a 4-digit PIN, then calls `registerUser`.
Falsy strings are empty strings.  Returns the response and the USERS sheet. -/
def postRegister (users : List UserRow) (newId : String) (now : Int)
    (email name workplace pin : String) (disciplines : List String) :
    RegResponse × List UserRow :=
  if email = "" ∨ name = "" ∨ workplace = "" ∨ pin = "" ∨ disciplines = [] then
    (.err "All fields are required", users)
  else if ¬ pinWellFormed pin then
    (.err "PIN must be exactly 4 digits", users)
  else
    match registerUser users newId now email name workplace pin disciplines with
    | (.ok userId, users') => (.ok userId, users')
    | (.err msg, users') => (.err msg, users')

/-- Response of `POST /api/checkin`: `ok` is the 200 body, `err` a 400 body. -/
inductive CheckinResponse where
  | ok
  | err (msg : String)
deriving DecidableEq

/-- Model of `POST /api/checkin` (app/api/checkin/route.ts): requires `userId` and
`reason` truthy, checks `reason.length < 10 || reason.length > 500` on the
raw (unsanitized) reason, then calls `checkInUser`. -/
def postCheckin (users : List UserRow) (visits : List VisitRow) (newId : String)
    (now : Int) (userId reason : String) : CheckinResponse × List VisitRow :=
  if userId = "" ∨ reason = "" then
    (.err "User ID and reason are required", visits)
  else if reason.length < 10 ∨ 500 < reason.length then
    (.err "Reason must be between 10 and 500 characters", visits)
  else
    match checkInUser users visits newId now userId reason with
    | (.ok, visits') => (.ok, visits')
    | (.err msg, visits') => (.err msg, visits')

/-- The 200 body of `POST /api/login`: only the public identity fields are
serialized (`id`, `email`, `name`, `disciplines`) — the structure has no PIN
field at all. -/
structure PublicUser where
  id : String
  email : String
  name : String
  disciplines : List String
deriving DecidableEq

/-- Response of `POST /api/login`: 400 on malformed input, 401 on
authentication failure, 200 with the public fields on success. -/
inductive LoginResponse where
  | ok (user : PublicUser)
  | badRequest (msg : String)
  | unauthorized (msg : String)
deriving DecidableEq

/-- Model of `POST /api/login` (the login route): requires `email` and `pin` truthy
and a 4-digit PIN, then calls `authenticateUser`; failures surface with
status 401 and the success body exposes `id`, `email`, `name`,
`disciplines` only. -/
def postLogin (users : List UserRow) (email pin : String) : LoginResponse :=
  if email = "" ∨ pin = "" then
    .badRequest "Email and PIN are required"
  else if ¬ pinWellFormed pin then
    .badRequest "PIN must be exactly 4 digits"
  else
    match authenticateUser users email pin with
    | .err msg => .unauthorized msg
    | .ok user =>
      .ok { id := user.id, email := user.email, name := user.name,
            disciplines := splitDisc user.disciplines }

/-! ## PIN hashing (lib/pin.ts)

`crypto.createHash('sha256')...digest('hex')` and
`crypto.randomBytes(16).toString('hex')` are I/O-free but not expressible
bit-for-bit here; the digest is abstracted as a function parameter `sha`
(any deterministic map, as SHA-256 is) and the random salt as an explicit
`salt` argument.  A real salt/digest is a nonempty hex string, hence
contains no `:`; those facts appear as hypotheses where needed. -/

/-- Model of `hashPin` (lib/pin.ts): returns the salt and the digest joined
by a colon, where the digest is `sha256(pin + salt)` in hex. -/
def hashPin (sha : String → String) (salt pin : String) : String :=
  salt ++ ":" ++ sha (pin ++ salt)

/-- Model of `verifyPin` (lib/pin.ts): split the stored value on `:` into
`[salt, hash]`, fail if either is falsy (missing or empty), else rehash the
supplied PIN with the stored salt and compare. -/
def verifyPin (sha : String → String) (pin storedHash : String) : Bool :=
  let parts := splitChar ':' storedHash
  match parts.head?, parts[1]? with
  | some salt, some hash =>
    if salt = "" ∨ hash = "" then false
    else decide (sha (pin ++ salt) = hash)
  | _, _ => false

/-! ## Disciplines validation (lib/validation.ts) -/

/-- The `validDisciplines` literal inside `validateDisciplines`
(lib/validation.ts) — the three-item list, not the eight-item one. -/
def validDisciplines : List String := ["Software", "Hardware", "Creative"]

/-- Model of `validateDisciplines` (lib/validation.ts): `some (field, message)` models
a returned `ValidationError`, `none` models `null`. -/
def validateDisciplines (disciplines : List String) : Option (String × String) :=
  if disciplines = [] then
    some ("disciplines", "Please select at least one discipline")
  else if (disciplines.filter (fun d => !validDisciplines.contains d)).length > 0 then
    some ("disciplines", "Invalid discipline selected")
  else
    none

/-! ## Analytics (getAnalyticsData, lib/sheets/operations.ts) -/

/-- The keys of the `disciplineCounts` record in `getAnalyticsData`, in
insertion order (the order `Object.entries` reports). -/
def enumDisciplines : List String :=
  ["Software", "Art", "Hardware", "Design", "Fashion", "AI/ML", "Other",
   "Photographer/Videographer"]

/-- The counter `disciplineCounts[d]` after the
`allVisits.forEach(... visit.disciplines_at_visit.forEach ...)` loop: one
increment per occurrence of `d` in each visit's disciplines snapshot. -/
def countDiscipline (visits : List VisitRow) (d : String) : Nat :=
  (visits.map (fun v => (splitDisc v.disciplines).count d)).sum

/-- The `disciplineBreakdown` value: `Object.entries(disciplineCounts)` mapped to
`{discipline, count}` pairs. -/
def disciplineBreakdown (visits : List VisitRow) : List (String × Nat) :=
  enumDisciplines.map (fun d => (d, countDiscipline visits d))

/-- The sum of all breakdown counters. -/
def sumBreakdown (visits : List VisitRow) : Nat :=
  ((disciplineBreakdown visits).map Prod.snd).sum

/-- The `recentVisits` value in `getAnalyticsData`: `allVisits.slice(0, 20)` — the
first 20 rows in sheet order — each joined with the owning user's current
name and email (`'Unknown'` when the user row is missing).  Note: the code
performs no sort before `slice`. -/
def recentActivity (users : List UserRow) (visits : List VisitRow) :
    List (VisitRow × String × String) :=
  (visits.take 20).map (fun v =>
    match users.find? (fun row => decide (row.id = v.user_id)) with
    | some u => (v, u.name, u.email)
    | none => (v, "Unknown", "Unknown"))

/-- Result record of `getAnalyticsData`. -/
structure AnalyticsData where
  today : Nat
  week : Nat
  month : Nat
  breakdown : List (String × Nat)
  recent : List (VisitRow × String × String)
deriving DecidableEq

/-- Model of `getAnalyticsData` (lib/sheets/operations.ts).  The local-time window
boundaries (`todayStart`, `weekStart`, `monthStart`) are passed in as epoch
milliseconds; each window count is the number of visits with
`visitTime >= boundary`. -/
def getAnalyticsData (users : List UserRow) (visits : List VisitRow)
    (todayStart weekStart monthStart : Int) : AnalyticsData :=
  { today := (visits.filter (fun v => decide (todayStart ≤ v.time))).length
    week := (visits.filter (fun v => decide (weekStart ≤ v.time))).length
    month := (visits.filter (fun v => decide (monthStart ≤ v.time))).length
    breakdown := disciplineBreakdown visits
    recent := recentActivity users visits }

/-! ## CSV export (exportToCSV, lib/sheets/operations.ts) -/

/-- The quoting step `String(cell).replace(/"/g, '""')`: double every double quote. -/
def dqChars : List Char → List Char
  | [] => []
  | c :: cs => if c = '"' then '"' :: '"' :: dqChars cs else c :: dqChars cs

/-- One CSV cell: `` `"${String(cell).replace(/"/g, '""')}"` ``. -/
def escapeCellChars (l : List Char) : List Char := '"' :: (dqChars l ++ ['"'])

/-- String form of `escapeCellChars`. -/
def escapeCell (s : String) : String := String.mk (escapeCellChars s.data)

/-- One data row: cells quoted and joined with `,`. -/
def csvRow (cells : List String) : String := joinStr "," (cells.map escapeCell)

/-- The header row of the export. -/
def csvHeader : String := "Timestamp,Name,Email,Disciplines,Reason"

/-- The full export text: header and rows joined with `\n`. -/
def csvText (rows : List (List String)) : String :=
  joinStr "\n" (csvHeader :: rows.map csvRow)

/-- Helper for substring search: does the text begin with the pattern (pattern is the second argument)? -/
def startsWithChars : List Char → List Char → Bool
  | _, [] => true
  | [], _ :: _ => false
  | c :: cs, p :: ps => c = p && startsWithChars cs ps

/-- JavaScript `String.prototype.includes` over characters. -/
def containsChars (pat : List Char) : List Char → Bool
  | [] => startsWithChars [] pat
  | c :: rest => startsWithChars (c :: rest) pat || containsChars pat rest

/-- Case-insensitive substring test used by the `searchTerm` filter:
`userName.toLowerCase().includes(term)` with `term` already lowercased. -/
def containsIgnoreCase (hay term : String) : Bool :=
  containsChars (lowerStr term).data (lowerStr hay).data

/-- Descending insertion into a list sorted descending by `key`. -/
def insertDescBy (key : List String → Int) (r : List String) :
    List (List String) → List (List String)
  | [] => [r]
  | x :: xs => if key x ≤ key r then r :: x :: xs else x :: insertDescBy key r xs

/-- The `rows.sort((a, b) => parse(b[0]) - parse(a[0]))` step: sort rows
descending by the parsed first cell (insertion sort; JavaScript's sort order
among equal keys is implementation-defined). -/
def sortRowsDesc (key : List String → Int) (rows : List (List String)) :
    List (List String) :=
  rows.foldr (insertDescBy key) []

/-- The filtered, joined, formatted and sorted data rows of `exportToCSV`:
per surviving visit the five cells
`[fmtTime timestamp, name, email, disciplines joined '; ', reason]`.
`fmtTime` abstracts `new Date(t).toLocaleString()` and `parseTime` the
reverse `new Date(cell).getTime()` used only by the sort comparator. -/
def exportRows (users : List UserRow) (visits : List VisitRow)
    (startT endT : Option Int) (disc : Option String) (search : Option String)
    (fmtTime : Int → String) (parseTime : String → Int) : List (List String) :=
  let vs1 : List VisitRow := match startT with
    | some t => visits.filter (fun v => decide (t ≤ v.time))
    | none => visits
  let vs2 : List VisitRow := match endT with
    | some t => vs1.filter (fun v => decide (v.time ≤ t))
    | none => vs1
  let vs3 : List VisitRow := match disc with
    | some d => vs2.filter (fun v => (splitDisc v.disciplines).contains d)
    | none => vs2
  let rows := vs3.filterMap (fun v =>
    match users.find? (fun row => decide (row.id = v.user_id)) with
    | none => none
    | some u =>
      let keep := match search with
        | some term => containsIgnoreCase u.name term || containsIgnoreCase u.email term
        | none => true
      if keep then
        some [fmtTime v.time, u.name, u.email,
              joinStr "; " (splitDisc v.disciplines), v.reason]
      else none)
  sortRowsDesc (fun row => parseTime (row.headD "")) rows

/-- Model of `exportToCSV` (lib/sheets/operations.ts): the CSV text built from
`exportRows`. -/
def exportToCSV (users : List UserRow) (visits : List VisitRow)
    (startT endT : Option Int) (disc : Option String) (search : Option String)
    (fmtTime : Int → String) (parseTime : String → Int) : String :=
  csvText (exportRows users visits startT endT disc search fmtTime parseTime)

/-! ## CSV re-parsing, from the claim: split rows on the line separator and
fields on commas, both taken outside double quotes, then strip the enclosing
quotes of each field and collapse doubled double quotes. -/

/-- Quote-aware splitter: `inQ` tracks whether the scan position is inside a
double-quoted region (every `"` toggles it); `sep` only separates outside
quotes. -/
def splitQAgo (sep : Char) : Bool → List Char → List Char → List (List Char)
  | _, acc, [] => [acc.reverse]
  | inQ, acc, c :: cs =>
    if c = '"' then splitQAgo sep (!inQ) (c :: acc) cs
    else if c = sep ∧ inQ = false then acc.reverse :: splitQAgo sep false [] cs
    else splitQAgo sep inQ (c :: acc) cs

/-- Collapse each doubled double quote into one. -/
def collapseDq : List Char → List Char
  | [] => []
  | [c] => [c]
  | c :: d :: rest =>
    if c = '"' ∧ d = '"' then '"' :: collapseDq rest
    else c :: collapseDq (d :: rest)

/-- Undo the cell quoting: strip one enclosing pair of double quotes and
collapse doubled double quotes inside. -/
def parseCell (cs : List Char) : List Char :=
  if 2 ≤ cs.length ∧ cs.head? = some '"' ∧ cs.getLast? = some '"' then
    collapseDq (cs.drop 1).dropLast
  else cs

/-- Re-parse one CSV line into its cells. -/
def parseLine (l : List Char) : List String :=
  (splitQAgo ',' false [] l).map (fun cell => String.mk (parseCell cell))

/-- Re-parse a CSV text: split into lines outside quotes, drop the header
line, and parse each remaining line into cells. -/
def parseDataRows (text : String) : List (List String) :=
  ((splitQAgo '\n' false [] text.data).drop 1).map parseLine

/-! ## Concrete fixtures for witnesses and counterexamples -/

/-- A registered user row as `registerUser` would store it. -/
def sampleUser : UserRow :=
  { id := "u1", email := "a@b.c", name := "Alice", workplace := "W",
    disciplines := "Software", created_at := 0, updated_at := 0, pin := "1234" }

/-- A one-user USERS sheet. -/
def sampleUsers : List UserRow := [sampleUser]

/-- An earlier visit (timestamp 1000 ms). -/
def visitOld : VisitRow :=
  { id := "v1", user_id := "u1", time := 1000, reason := "first visit here",
    disciplines := "Software" }

/-- A later visit (timestamp 2000 ms). -/
def visitNew : VisitRow :=
  { id := "v2", user_id := "u1", time := 2000, reason := "second visit now",
    disciplines := "Software" }

/-- A visit whose disciplines snapshot lies outside the fixed enumeration. -/
def visitQuilting : VisitRow :=
  { id := "vq", user_id := "u1", time := 0, reason := "quilting for a while",
    disciplines := "Quilting" }

/-- The user row stored by
`registerUser [] "u1" 0 "jjavascript:avascript:" "Al" "W" "1111" ["Software"]`:
its sanitized email is the string `javascript:`. -/
def userJsEmail : UserRow :=
  { id := "u1", email := "javascript:", name := "Al", workplace := "W",
    disciplines := "Software", created_at := 0, updated_at := 0, pin := "1111" }

/-- The visit row written for a 10-space reason: the stored reason is empty. -/
def emptyReasonVisit : VisitRow :=
  { id := "v1", user_id := "u1", time := 1000, reason := "", disciplines := "Software" }

/-- The visit row written for the reason `valid reason here!`. -/
def validReasonVisit : VisitRow :=
  { id := "v1", user_id := "u1", time := 1000, reason := "valid reason here!",
    disciplines := "Software" }

end NewStadium

namespace NewStadium

/-! # Claim theorems -/

/-- Claim C1: with the check-in user present in the Identity Store, a
check-in attempt while the Visit Log holds a visit by that identity with
timestamp inside the 60-second window fails with the duplicate-suppression
error and leaves the Visit Log unchanged; once no visit by the identity lies
inside the window, a check-in (with any reason, in particular an identical
one) succeeds and appends exactly one Visit. -/
theorem checkInUser_duplicate_suppression
    (users : List UserRow) (visits : List VisitRow) (newId : String) (now : Int)
    (userId reason : String) (u : UserRow)
    (hu : findUserRow users userId = some u) :
    ((∃ v ∈ visits, v.user_id = userId ∧ now - 60 * 1000 < v.time) →
      checkInUser users visits newId now userId reason =
        (.err "You have already checked in within the last minute", visits)) ∧
    ((∀ v ∈ visits, v.user_id = userId → v.time ≤ now - 60 * 1000) →
      checkInUser users visits newId now userId reason =
        (.ok, visits ++ [{ id := newId, user_id := userId, time := now,
                           reason := sanitizeInput reason,
                           disciplines := joinStr "," (splitDisc u.disciplines) }])) := by
  have hchar : hasRecentVisit visits userId now = true ↔
      ∃ v ∈ visits, v.user_id = userId ∧ now - 60 * 1000 < v.time := by
    simp [hasRecentVisit]
  constructor
  · intro hex
    have ht : hasRecentVisit visits userId now = true := hchar.mpr hex
    simp [checkInUser, hu, ht]
  · intro hall
    have hf : hasRecentVisit visits userId now = false := by
      rw [← Bool.not_eq_true, hchar]
      simp only [not_exists, not_and, not_lt]
      intro v hv hid
      exact hall v hv hid
    simp [checkInUser, hu, hf]

/-- Witness for C1 at a concrete state: user `u1` with a visit at 1000 ms.
At `now = 50000` (49 s later) the check-in is refused and the log unchanged;
at `now = 200000` (199 s later) it succeeds and appends one visit. -/
theorem checkInUser_duplicate_suppression_witness :
    checkInUser sampleUsers [visitOld] "v9" 50000 "u1" "testing again today" =
      (.err "You have already checked in within the last minute", [visitOld]) ∧
    checkInUser sampleUsers [visitOld] "v9" 200000 "u1" "testing again today" =
      (.ok, [visitOld,
             { id := "v9", user_id := "u1", time := 200000,
               reason := "testing again today", disciplines := "Software" }]) := by
  have h := checkInUser_duplicate_suppression sampleUsers [visitOld] "v9" 50000
    "u1" "testing again today" sampleUser (by decide)
  have h' := checkInUser_duplicate_suppression sampleUsers [visitOld] "v9" 200000
    "u1" "testing again today" sampleUser (by decide)
  refine ⟨h.1 ?_, ?_⟩
  · exact ⟨visitOld, by decide⟩
  · have := h'.2 (by decide)
    simpa using this

/-- Claim C10 (amended): `sanitizeInput` output never contains an angle
bracket; the claim's further conjunct that the output is always a trimmed
string is refuted by `sanitizeInput_not_trimmed_cex`.  Every free-text field
persisted by `registerUser`, `updateUserProfile` and `checkInUser` is an
image of `sanitizeInput` (visible in those definitions), hence free of angle
brackets. -/
theorem sanitizeInput_no_angle_brackets (s : String) :
    '<' ∉ (sanitizeInput s).data ∧ '>' ∉ (sanitizeInput s).data := by
  constructor
  · intro h
    have := sanitizeChars_no_angle s.data '<' h
    simp [noAngle] at this
  · intro h
    have := sanitizeChars_no_angle s.data '>' h
    simp [noAngle] at this

/-- Counterexample to claim C10 as stated: sanitization trims first and
strips afterwards, so removing the angle brackets of `< a >` exposes
whitespace at both ends — the result `" a "` is not a trimmed string. -/
theorem sanitizeInput_not_trimmed_cex :
    sanitizeInput "< a >" = " a " ∧
    String.mk (trimChars (sanitizeInput "< a >").data) ≠ sanitizeInput "< a >" := by
  decide

/-- Claim C8 (amended): registration whose sanitized lowercased email
(`sanitizeInput(email.toLowerCase())` — trim, lowercase, and removal of
angle brackets, `javascript:` and `on*=` patterns) equals a stored email
fails with the conflict error and leaves the Identity Store unchanged.  The
original claim, which normalizes by trim and lowercase only, is refuted by
`registerUser_duplicate_email_cex`. -/
theorem registerUser_duplicate_email_amended
    (users : List UserRow) (newId : String) (now : Int)
    (email name workplace pin : String) (disciplines : List String)
    (h : ∃ r ∈ users, r.email = sanitizeInput (lowerStr email)) :
    registerUser users newId now email name workplace pin disciplines =
      (.err "Email already registered", users) := by
  obtain ⟨r, hr, hre⟩ := h
  have hany : users.any
      (fun row => decide (row.email = sanitizeInput (lowerStr email))) = true := by
    rw [List.any_eq_true]
    exact ⟨r, hr, by simpa using hre⟩
  simp [registerUser, hany]

/-- Witness for C8 at a concrete state: registering `A@B.C ` (uppercase,
trailing blank) against a store holding `a@b.c` is refused, store unchanged. -/
theorem registerUser_duplicate_email_amended_witness :
    registerUser sampleUsers "u9" 5 "A@B.C " "X" "Y" "0000" ["Software"] =
      (.err "Email already registered", sampleUsers) :=
  registerUser_duplicate_email_amended sampleUsers "u9" 5 "A@B.C " "X" "Y" "0000"
    ["Software"] ⟨sampleUser, by decide⟩

/-- Counterexample to claim C8 as stated: the store can hold the email
`javascript:` (written by `registerUser` for the input
`jjavascript:avascript:`, whose single sanitizer pass leaves exactly
`javascript:`).  A later registration with email `JAVASCRIPT:` — whose
trim+lowercase normalization equals the stored email — is *not* refused:
its sanitized form is the empty string, no conflict is detected, and a
second Identity is appended. -/
theorem registerUser_duplicate_email_cex :
    (registerUser [] "u1" 0 "jjavascript:avascript:" "Al" "W" "1111"
        ["Software"]).snd = [userJsEmail] ∧
    String.mk (trimChars (lowerStr "JAVASCRIPT:").data) = userJsEmail.email ∧
    (registerUser [userJsEmail] "u2" 0 "JAVASCRIPT:" "Bo" "W" "2222"
        ["Software"]).fst = .ok "u2" ∧
    (registerUser [userJsEmail] "u2" 0 "JAVASCRIPT:" "Bo" "W" "2222"
        ["Software"]).snd.length = 2 := by
  decide

/-- Claim C9: for well-formed login input (nonempty email, 4-digit PIN),
`POST login` either succeeds with a body holding exactly the public fields
`id`, `email`, `name`, `disciplines` of the found user (the `PublicUser`
structure has no PIN field, so the credential is never in the body), or
fails with status 401 carrying exactly one of the three distinguished
reasons: account not found / account has no PIN / incorrect PIN. -/
theorem postLogin_failure_reasons (users : List UserRow) (email pin : String)
    (he : email ≠ "") (hp : pinWellFormed pin = true) :
    (∃ u, users.find? (fun row => decide (row.email = sanitizeInput (lowerStr email))) = some u ∧
        postLogin users email pin =
          .ok { id := u.id, email := u.email, name := u.name,
                disciplines := splitDisc u.disciplines }) ∨
    (∃ msg, postLogin users email pin = .unauthorized msg ∧
        (msg = "Account not found. Please register first." ∨
         msg = "Account exists but has no PIN. Please contact support." ∨
         msg = "Incorrect PIN. Please try again.")) := by
  have hpne : pin ≠ "" := by
    intro h
    rw [h] at hp
    simp [pinWellFormed] at hp
  cases hfind : users.find? (fun row => decide (row.email = sanitizeInput (lowerStr email))) with
  | none =>
    right
    exact ⟨_, by simp [postLogin, authenticateUser, he, hpne, hp, hfind], Or.inl rfl⟩
  | some u =>
    by_cases hupin : u.pin = ""
    · right
      exact ⟨_, by simp [postLogin, authenticateUser, he, hpne, hp, hfind, hupin],
             Or.inr (Or.inl rfl)⟩
    · by_cases heq : pin = u.pin
      · left
        subst heq
        exact ⟨u, rfl, by simp [postLogin, authenticateUser, he, hpne, hp, hfind, hupin]⟩
      · right
        exact ⟨_, by simp [postLogin, authenticateUser, he, hpne, hp, hfind, hupin, heq],
               Or.inr (Or.inr rfl)⟩

/-- Witness for C9 at a concrete state: login of `a@b.c` with PIN `1234`
against the one-user store. -/
theorem postLogin_failure_reasons_witness :
    (∃ u, sampleUsers.find?
        (fun row => decide (row.email = sanitizeInput (lowerStr "a@b.c"))) = some u ∧
        postLogin sampleUsers "a@b.c" "1234" =
          .ok { id := u.id, email := u.email, name := u.name,
                disciplines := splitDisc u.disciplines }) ∨
    (∃ msg, postLogin sampleUsers "a@b.c" "1234" = .unauthorized msg ∧
        (msg = "Account not found. Please register first." ∨
         msg = "Account exists but has no PIN. Please contact support." ∨
         msg = "Incorrect PIN. Please try again.")) :=
  postLogin_failure_reasons sampleUsers "a@b.c" "1234" (by decide) (by decide)

/-- Claim C4 (amended): `POST register` fails, leaving the Identity Store
unchanged, when the disciplines list is empty; membership in the eight-item
enumeration is *not* enforced on this path (refuted by
`postRegister_discipline_enum_cex`) — the repository's only membership
validator, `validateDisciplines`, accepts exactly the nonempty lists drawn
from the three-item list `Software`/`Hardware`/`Creative` and is not invoked
by the register route. -/
theorem postRegister_disciplines_amended (users : List UserRow) (newId : String)
    (now : Int) (email name workplace pin : String) :
    postRegister users newId now email name workplace pin [] =
      (.err "All fields are required", users) ∧
    (∀ ds : List String,
      validateDisciplines ds = none ↔ ds ≠ [] ∧ ∀ d ∈ ds, d ∈ validDisciplines) := by
  constructor
  · simp [postRegister]
  · intro ds
    by_cases hds : ds = []
    · simp [validateDisciplines, hds]
    · simp only [validateDisciplines, hds, if_false, ne_eq, not_false_eq_true, true_and]
      rcases h : (ds.filter fun d => !validDisciplines.contains d).length with _ | n
      · simp only [List.length_eq_zero] at h
        have := List.filter_eq_nil_iff.mp h
        simp only [gt_iff_lt, h]
        constructor
        · intro _ d hd
          have := this d hd
          simpa using this
        · intro _
          simp [List.length_eq_zero, h]
      · simp only [gt_iff_lt, h, Nat.succ_pos, if_pos]
        constructor
        · intro hcontra
          exact absurd hcontra (by simp)
        · intro hall
          have : (ds.filter fun d => !validDisciplines.contains d) = [] := by
            rw [List.filter_eq_nil_iff]
            intro a ha
            simpa using hall a ha
          rw [this] at h
          simp at h

/-- Counterexample to claim C4 as stated: registering with the disciplines
list `["Quilting"]` — a value outside the eight-item enumeration — succeeds
and stores `Quilting`, because neither the register route nor `registerUser`
checks membership. -/
theorem postRegister_discipline_enum_cex :
    postRegister [] "u1" 0 "a@b.c" "Alice" "W" "1234" ["Quilting"] =
      (.ok "u1", [{ id := "u1", email := "a@b.c", name := "Alice", workplace := "W",
                    disciplines := "Quilting", created_at := 0, updated_at := 0,
                    pin := "1234" }]) ∧
    "Quilting" ∉ enumDisciplines := by
  decide

/-- Claim C5 (code bug): at a Visit Log holding two visits appended in
chronological order (`visitOld` at 1000 ms, then `visitNew` at 2000 ms),
`getAnalyticsData` reports as recent activity the *first* 20 sheet rows in
stored order — `[visitOld, visitNew]`, oldest first — not the 20 most
recent entries in descending timestamp order (`[visitNew, visitOld]`):
the code slices before any sort. -/
theorem recentActivity_oldest_first_bug :
    (getAnalyticsData sampleUsers [visitOld, visitNew] 0 0 0).recent =
      [(visitOld, "Alice", "a@b.c"), (visitNew, "Alice", "a@b.c")] ∧
    visitOld.time < visitNew.time ∧
    [(visitOld, "Alice", "a@b.c"), (visitNew, "Alice", "a@b.c")] ≠
      [(visitNew, "Alice", "a@b.c"), (visitOld, "Alice", "a@b.c")] := by
  decide

-- Helper lemmas for the breakdown counters.

theorem list_sum_map_add {α : Type} (f g : α → Nat) (l : List α) :
    (l.map (fun a => f a + g a)).sum = (l.map f).sum + (l.map g).sum := by
  induction l with
  | nil => simp
  | cons a l ih => simp [ih]; omega

theorem sumBreakdown_cons (v : VisitRow) (visits : List VisitRow) :
    sumBreakdown (v :: visits) =
      (enumDisciplines.map (fun d => (splitDisc v.disciplines).count d)).sum +
        sumBreakdown visits := by
  simp only [sumBreakdown, disciplineBreakdown, countDiscipline, List.map_cons,
    List.sum_cons, List.map_map, Function.comp_def]
  exact list_sum_map_add _ _ enumDisciplines

/-- Claim C7 (amended): appending a Visit never decreases any breakdown
counter of `getAnalyticsData` and all counters are non-negative (they are
natural numbers); for every Visit Log — mixed logs included — the sum of
the per-discipline counts is at least the number of visits whose
disciplines-at-visit snapshot contains at least one discipline of the
fixed enumeration.  The unconditional comparison with the
*total* visit count claimed originally is refuted by
`disciplineBreakdown_sum_cex`: a visit whose snapshot lies entirely outside
the enumeration increments no counter. -/
theorem disciplineBreakdown_amended (visits : List VisitRow) (v : VisitRow)
    (d : String) :
    countDiscipline visits d ≤ countDiscipline (visits ++ [v]) d ∧
    0 ≤ countDiscipline visits d ∧
    (visits.filter (fun w => (splitDisc w.disciplines).any
        (fun d' => enumDisciplines.contains d'))).length ≤ sumBreakdown visits := by
  refine ⟨?_, Nat.zero_le _, ?_⟩
  · simp only [countDiscipline, List.map_append, List.sum_append]
    exact Nat.le_add_right _ _
  · induction visits with
    | nil => simp [sumBreakdown, disciplineBreakdown, countDiscipline]
    | cons w ws ih =>
      rw [sumBreakdown_cons]
      by_cases hw : (splitDisc w.disciplines).any
          (fun d' => enumDisciplines.contains d') = true
      · obtain ⟨d', hd'mem, hd'cont⟩ := List.any_eq_true.mp hw
        have hd'enum : d' ∈ enumDisciplines := by simpa using hd'cont
        have hcount : 1 ≤ (splitDisc w.disciplines).count d' :=
          List.count_pos_iff.mpr hd'mem
        have hle : (splitDisc w.disciplines).count d' ≤
            (enumDisciplines.map (fun e => (splitDisc w.disciplines).count e)).sum :=
          List.single_le_sum (fun _ _ => Nat.zero_le _) _
            (List.mem_map_of_mem _ hd'enum)
        have hfil : List.filter (fun x => (splitDisc x.disciplines).any
            (fun d' => enumDisciplines.contains d')) (w :: ws) =
            w :: List.filter (fun x => (splitDisc x.disciplines).any
              (fun d' => enumDisciplines.contains d')) ws := by
          simp only [List.filter_cons]
          rw [if_pos hw]
        rw [hfil, List.length_cons]
        omega
      · rw [Bool.not_eq_true] at hw
        have hfil : List.filter (fun x => (splitDisc x.disciplines).any
            (fun d' => enumDisciplines.contains d')) (w :: ws) =
            List.filter (fun x => (splitDisc x.disciplines).any
              (fun d' => enumDisciplines.contains d')) ws := by
          simp only [List.filter_cons]
          rw [if_neg (by rw [hw]; exact Bool.false_ne_true)]
        rw [hfil]
        omega

/-- Witness for C7 at a concrete mixed state: a `Software` visit together
with a `Quilting` visit (outside the enumeration); one visit carries an
enumerated discipline, and the breakdown sum is at least that one. -/
theorem disciplineBreakdown_amended_witness :
    countDiscipline [visitOld, visitQuilting] "Software" ≤
      countDiscipline ([visitOld, visitQuilting] ++ [visitNew]) "Software" ∧
    0 ≤ countDiscipline [visitOld, visitQuilting] "Software" ∧
    (([visitOld, visitQuilting] : List VisitRow).filter
        (fun w => (splitDisc w.disciplines).any
          (fun d' => enumDisciplines.contains d'))).length ≤
      sumBreakdown [visitOld, visitQuilting] :=
  disciplineBreakdown_amended [visitOld, visitQuilting] visitNew "Software"

/-- Counterexample to claim C7 as stated: a Visit Log holding one visit
whose disciplines snapshot is `Quilting` (outside the enumeration, reachable
because registration does not validate membership) has breakdown sum 0, less
than the total visit count 1. -/
theorem disciplineBreakdown_sum_cex :
    sumBreakdown [visitQuilting] = 0 ∧
    ([visitQuilting] : List VisitRow).length = 1 ∧
    (getAnalyticsData sampleUsers [visitQuilting] 0 0 0).breakdown =
      disciplineBreakdown [visitQuilting] := by
  decide

/-- Claim C2 (amended): the check-in route rejects requests whose *raw*
reason length lies outside [10,500] with the validation error and writes
nothing; every visit row present after a `POST checkin` call either was
already in the log or carries the sanitized reason, whose length is at most
500 (sanitization only removes characters).  The original claim's lower
bound on the *trimmed stored* reason is refuted by
`postCheckin_reason_bounds_cex`: the route measures the raw string before
sanitization, so trimming can shrink it below 10. -/
theorem postCheckin_reason_bounds (users : List UserRow) (visits : List VisitRow)
    (newId : String) (now : Int) (userId reason : String) :
    (userId ≠ "" → reason ≠ "" → (reason.length < 10 ∨ 500 < reason.length) →
      postCheckin users visits newId now userId reason =
        (.err "Reason must be between 10 and 500 characters", visits)) ∧
    (∀ resp visits', postCheckin users visits newId now userId reason = (resp, visits') →
      ∀ v ∈ visits', v ∈ visits ∨
        (v.reason = sanitizeInput reason ∧ v.reason.length ≤ 500)) := by
  constructor
  · intro hu hr hlen
    have : ¬ (userId = "" ∨ reason = "") := by
      simp [hu, hr]
    simp only [postCheckin, this, if_false]
    rw [if_pos]
    omega
  · intro resp visits' heq v hv
    by_cases h1 : userId = "" ∨ reason = ""
    · simp only [postCheckin, h1, if_true] at heq
      cases heq
      exact Or.inl hv
    · by_cases h2 : reason.length < 10 ∨ 500 < reason.length
      · simp only [postCheckin, h1, if_false] at heq
        rw [if_pos (by omega)] at heq
        cases heq
        exact Or.inl hv
      · have hlen : reason.length ≤ 500 := by omega
        simp only [postCheckin, h1, if_false] at heq
        rw [if_neg (by omega)] at heq
        rcases hfind : findUserRow users userId with _ | u
        · simp only [checkInUser, hfind] at heq
          cases heq
          exact Or.inl hv
        · by_cases hrec : hasRecentVisit visits userId now = true
          · simp only [checkInUser, hfind, hrec, if_true] at heq
            cases heq
            exact Or.inl hv
          · rw [Bool.not_eq_true] at hrec
            simp only [checkInUser, hfind, hrec, Bool.false_eq_true, if_false] at heq
            cases heq
            rcases List.mem_append.mp hv with hmem | hmem
            · exact Or.inl hmem
            · simp only [List.mem_singleton] at hmem
              subst hmem
              exact Or.inr ⟨rfl, le_trans (sanitizeInput_length_le reason) hlen⟩

/-- Witness for C2: a 5-character reason is rejected with the log unchanged,
and the visit written for the 18-character reason `valid reason here!`
carries the sanitized reason of length at most 500. -/
theorem postCheckin_reason_bounds_witness :
    postCheckin sampleUsers [] "v9" 0 "u1" "short" =
      (.err "Reason must be between 10 and 500 characters", []) ∧
    (validReasonVisit ∈ ([] : List VisitRow) ∨
      (validReasonVisit.reason = sanitizeInput "valid reason here!" ∧
       validReasonVisit.reason.length ≤ 500)) := by
  constructor
  · exact (postCheckin_reason_bounds sampleUsers [] "v9" 0 "u1" "short").1
      (by decide) (by decide) (by decide)
  · exact (postCheckin_reason_bounds sampleUsers [] "v1" 1000 "u1"
      "valid reason here!").2 .ok [validReasonVisit] (by decide)
      validReasonVisit (by decide)

/-- Counterexample to claim C2 as stated: the raw reason of ten blanks
passes the route's length check (raw length 10), `checkInUser` then stores
the sanitized reason — the empty string, of trimmed length 0 — in a new
Visit. -/
theorem postCheckin_reason_bounds_cex :
    postCheckin sampleUsers [] "v1" 1000 "u1" "          " =
      (.ok, [emptyReasonVisit]) ∧
    emptyReasonVisit.reason = "" ∧
    (String.mk (trimChars emptyReasonVisit.reason.data)).length < 10 := by
  decide

-- Helper lemmas for the split used by verifyPin.

theorem splitCharGo_cons_ne (sep c : Char) (acc cs : List Char) (h : c ≠ sep) :
    splitCharGo sep acc (c :: cs) = splitCharGo sep (c :: acc) cs := by
  simp [splitCharGo, h]

theorem splitCharGo_no_sep (sep : Char) :
    ∀ (l : List Char) (acc cs : List Char), (∀ c ∈ l, c ≠ sep) →
      splitCharGo sep acc (l ++ cs) = splitCharGo sep (l.reverse ++ acc) cs := by
  intro l
  induction l with
  | nil => intro acc cs _; simp
  | cons c l' ih =>
    intro acc cs h
    have hc : c ≠ sep := h c (List.mem_cons_self c l')
    rw [List.cons_append, splitCharGo_cons_ne sep c acc _ hc,
      ih (c :: acc) cs (fun x hx => h x (List.mem_cons_of_mem c hx))]
    simp

theorem splitChar_hashPin (sha : String → String) (salt pin : String)
    (hsalt : ':' ∉ salt.data) (hhash : ':' ∉ (sha (pin ++ salt)).data) :
    splitChar ':' (hashPin sha salt pin) = [salt, sha (pin ++ salt)] := by
  have hdata : (hashPin sha salt pin).data =
      salt.data ++ ':' :: (sha (pin ++ salt)).data := by
    simp [hashPin]
  have hs : ∀ c ∈ salt.data, c ≠ ':' := by
    intro c hc he
    exact hsalt (he ▸ hc)
  have hh : ∀ c ∈ (sha (pin ++ salt)).data, c ≠ ':' := by
    intro c hc he
    exact hhash (he ▸ hc)
  unfold splitChar
  rw [hdata]
  have h1 : salt.data ++ ':' :: (sha (pin ++ salt)).data =
      salt.data ++ (':' :: (sha (pin ++ salt)).data) := rfl
  rw [h1, splitCharGo_no_sep ':' salt.data [] _ hs]
  simp only [splitCharGo, if_pos rfl, List.append_nil, List.reverse_reverse]
  have h2 : (sha (pin ++ salt)).data = (sha (pin ++ salt)).data ++ [] := by simp
  rw [h2, splitCharGo_no_sep ':' _ [] [] hh]
  simp [splitCharGo]

/-- Claim C3 (amended): the hashing utilities satisfy the claimed relation —
`hashPin` produces `salt:hash` with `hash = sha(pin + salt)` and `verifyPin`
rehashes the supplied PIN with the stored salt, so the round trip
`verifyPin(p, hashPin(p))` succeeds for every PIN and every real (nonempty,
colon-free) salt and digest.  But the sheets backend does *not* use them:
`registerUser` stores the submitted PIN verbatim as the credential and
`authenticateUser` compares the supplied PIN to the stored cell by plain
string equality.  The original claim that every stored credential is a
salted hash is refuted by `registerUser_plaintext_pin_cex`. -/
theorem pin_roundtrip_and_plaintext_storage :
    (∀ (sha : String → String) (salt pin : String),
      salt ≠ "" → ':' ∉ salt.data → sha (pin ++ salt) ≠ "" →
      ':' ∉ (sha (pin ++ salt)).data →
      verifyPin sha pin (hashPin sha salt pin) = true) ∧
    (∀ (users : List UserRow) (newId : String) (now : Int)
        (email name workplace pin : String) (ds : List String),
      users.any (fun row => decide (row.email = sanitizeInput (lowerStr email))) = false →
      (registerUser users newId now email name workplace pin ds).snd =
        users ++ [{ id := newId, email := sanitizeInput (lowerStr email),
                    name := sanitizeInput name, workplace := sanitizeInput workplace,
                    disciplines := joinStr "," ds, created_at := now,
                    updated_at := now, pin := pin }]) ∧
    (∀ (users : List UserRow) (email pin : String) (u : UserRow),
      users.find? (fun row => decide (row.email = sanitizeInput (lowerStr email))) = some u →
      u.pin ≠ "" →
      (authenticateUser users email pin = .ok u ↔ pin = u.pin)) := by
  refine ⟨?_, ?_, ?_⟩
  · intro sha salt pin hs hsc hh hhc
    unfold verifyPin
    rw [splitChar_hashPin sha salt pin hsc hhc]
    simp [hs, hh]
  · intro users newId now email name workplace pin ds hany
    simp [registerUser, hany]
  · intro users email pin u hfind hupin
    by_cases heq : pin = u.pin
    · simp [authenticateUser, hfind, hupin, heq]
    · simp [authenticateUser, hfind, hupin, heq]

/-- Witness for C3 at concrete inputs: the round trip with the digest
function `fun _ => "x"` and salt `ab` verifies PIN `1234`; a concrete
registration stores the PIN cell `1234` verbatim; the concrete
authentication of `a@b.c` succeeds exactly when the supplied PIN equals the
stored plaintext cell. -/
theorem pin_roundtrip_and_plaintext_storage_witness :
    verifyPin (fun _ => "x") "1234" (hashPin (fun _ => "x") "ab" "1234") = true ∧
    (registerUser [] "u9" 7 "a@b.c" "Alice" "W" "1234" ["Software"]).snd =
      [{ id := "u9", email := "a@b.c", name := "Alice", workplace := "W",
         disciplines := "Software", created_at := 7, updated_at := 7,
         pin := "1234" }] ∧
    (authenticateUser sampleUsers "a@b.c" "1234" = .ok sampleUser ↔
      "1234" = sampleUser.pin) := by
  refine ⟨?_, ?_, ?_⟩
  · exact pin_roundtrip_and_plaintext_storage.1 (fun _ => "x") "ab" "1234"
      (by decide) (by decide) (by decide) (by decide)
  · have h := pin_roundtrip_and_plaintext_storage.2.1 [] "u9" 7 "a@b.c" "Alice"
      "W" "1234" ["Software"] (by decide)
    simpa using h
  · exact pin_roundtrip_and_plaintext_storage.2.2 sampleUsers "a@b.c" "1234"
      sampleUser (by decide) (by decide)

/-- Counterexample to claim C3 as stated: `registerUser` stores the raw PIN
`1234` as the credential — not a `salt:hash` pair — and verifying the PIN
against that stored credential by the rehash procedure (`verifyPin`) fails
for every digest function, because the stored cell contains no salt
separator.  (Authentication instead succeeds by plaintext equality.) -/
theorem registerUser_plaintext_pin_cex :
    (registerUser [] "u1" 0 "a@b.c" "Alice" "W" "1234" ["Software"]).snd =
      [sampleUser] ∧
    sampleUser.pin = "1234" ∧
    verifyPin (fun s => s) "1234" sampleUser.pin = false ∧
    verifyPin (fun _ => "deadbeef") "1234" sampleUser.pin = false := by
  decide

/-! ## CSV round-trip lemma chain (claim C6)

The scan lemmas track the quote-aware splitter through an escaped cell:
inside `dqChars` output every quote comes doubled, so the scanner enters and
leaves the quoted state in pairs and never cuts there. -/

theorem sq_nil (sep : Char) (inQ : Bool) (acc : List Char) :
    splitQAgo sep inQ acc [] = [acc.reverse] := rfl

theorem sq_quote (sep : Char) (inQ : Bool) (acc cs : List Char) :
    splitQAgo sep inQ acc ('"' :: cs) = splitQAgo sep (!inQ) ('"' :: acc) cs := by
  simp [splitQAgo]

theorem sq_sep (sep : Char) (h : sep ≠ '"') (acc cs : List Char) :
    splitQAgo sep false acc (sep :: cs) = acc.reverse :: splitQAgo sep false [] cs := by
  simp [splitQAgo, h]

theorem sq_other_true (sep c : Char) (h : c ≠ '"') (acc cs : List Char) :
    splitQAgo sep true acc (c :: cs) = splitQAgo sep true (c :: acc) cs := by
  simp [splitQAgo, h]

theorem sq_other_false (sep c : Char) (h : c ≠ '"') (h2 : c ≠ sep) (acc cs : List Char) :
    splitQAgo sep false acc (c :: cs) = splitQAgo sep false (c :: acc) cs := by
  simp [splitQAgo, h, h2]

theorem dqChars_cons_quote (l : List Char) :
    dqChars ('"' :: l) = '"' :: '"' :: dqChars l := by
  simp [dqChars]

theorem dqChars_cons_ne (c : Char) (l : List Char) (h : c ≠ '"') :
    dqChars (c :: l) = c :: dqChars l := by
  simp [dqChars, h]

theorem sq_dq (sep : Char) :
    ∀ (l acc cs : List Char),
      splitQAgo sep true acc (dqChars l ++ cs) =
        splitQAgo sep true ((dqChars l).reverse ++ acc) cs := by
  intro l
  induction l with
  | nil => intro acc cs; simp [dqChars]
  | cons c l' ih =>
    intro acc cs
    by_cases hc : c = '"'
    · subst hc
      rw [dqChars_cons_quote, List.cons_append, List.cons_append, sq_quote, sq_quote]
      simp only [Bool.not_true, Bool.not_false]
      rw [ih]
      simp [List.reverse_cons, List.append_assoc]
    · rw [dqChars_cons_ne c l' hc, List.cons_append, sq_other_true sep c hc, ih]
      simp [List.reverse_cons, List.append_assoc]

theorem sq_cell (sep : Char) (f acc cs : List Char) :
    splitQAgo sep false acc (escapeCellChars f ++ cs) =
      splitQAgo sep false ((escapeCellChars f).reverse ++ acc) cs := by
  show splitQAgo sep false acc (('"' :: (dqChars f ++ ['"'])) ++ cs) = _
  rw [List.cons_append, sq_quote]
  simp only [Bool.not_false]
  rw [List.append_assoc, List.singleton_append, sq_dq, sq_quote]
  simp only [Bool.not_true]
  simp [escapeCellChars, List.reverse_cons, List.reverse_append, List.append_assoc]

theorem sq_plain (sep : Char) :
    ∀ (b : List Char), (∀ c ∈ b, c ≠ '"' ∧ c ≠ sep) →
      ∀ (acc cs : List Char),
        splitQAgo sep false acc (b ++ cs) = splitQAgo sep false (b.reverse ++ acc) cs := by
  intro b
  induction b with
  | nil => intro _ acc cs; simp
  | cons c b' ih =>
    intro h acc cs
    obtain ⟨h1, h2⟩ := h c (List.mem_cons_self c b')
    rw [List.cons_append, sq_other_false sep c h1 h2,
      ih (fun x hx => h x (List.mem_cons_of_mem c hx))]
    simp

theorem sq_join (sep : Char) (hsep : sep ≠ '"') :
    ∀ (blocks : List (List Char)), blocks ≠ [] →
      (∀ b ∈ blocks, ∀ acc cs,
        splitQAgo sep false acc (b ++ cs) = splitQAgo sep false (b.reverse ++ acc) cs) →
      splitQAgo sep false [] (joinChars sep blocks) = blocks := by
  intro blocks
  induction blocks with
  | nil => intro h _; exact absurd rfl h
  | cons b rest ih =>
    intro _ hblocks
    cases rest with
    | nil =>
      show splitQAgo sep false [] (joinChars sep [b]) = [b]
      have hb := hblocks b (List.mem_cons_self b []) [] []
      simp only [joinChars]
      rw [← List.append_nil b, hb]
      simp [sq_nil]
    | cons b' rest' =>
      show splitQAgo sep false [] (joinChars sep (b :: b' :: rest')) = b :: b' :: rest'
      have hb := hblocks b (List.mem_cons_self b (b' :: rest'))
      simp only [joinChars]
      rw [show b ++ sep :: joinChars sep (b' :: rest') =
            b ++ (sep :: joinChars sep (b' :: rest')) from rfl,
        hb [] (sep :: joinChars sep (b' :: rest')), sq_sep sep hsep]
      rw [ih (by simp) (fun x hx => hblocks x (List.mem_cons_of_mem b hx))]
      simp

theorem collapseDq_cons_ne (c : Char) (l : List Char) (h : c ≠ '"') :
    collapseDq (c :: l) = c :: collapseDq l := by
  cases l with
  | nil => simp [collapseDq]
  | cons d l' => simp [collapseDq, h]

theorem collapseDq_dqChars : ∀ (f : List Char), collapseDq (dqChars f) = f := by
  intro f
  induction f with
  | nil => simp [dqChars, collapseDq]
  | cons c f' ih =>
    by_cases hc : c = '"'
    · subst hc
      rw [dqChars_cons_quote]
      simp [collapseDq, ih]
    · rw [dqChars_cons_ne c f' hc, collapseDq_cons_ne c _ hc, ih]

theorem parseCell_escape (f : List Char) : parseCell (escapeCellChars f) = f := by
  have hcond : 2 ≤ (escapeCellChars f).length ∧
      (escapeCellChars f).head? = some '"' ∧ (escapeCellChars f).getLast? = some '"' := by
    refine ⟨?_, rfl, ?_⟩
    · simp [escapeCellChars]
    · show ('"' :: (dqChars f ++ ['"'])).getLast? = some '"'
      rw [← List.cons_append, List.getLast?_concat]
  rw [parseCell, if_pos hcond]
  show collapseDq (('"' :: (dqChars f ++ ['"'])).drop 1).dropLast = f
  simp only [List.drop_succ_cons, List.drop_zero, List.dropLast_concat]
  exact collapseDq_dqChars f

theorem joinStr_data_single (c : Char) (sep : String) (hs : sep.data = [c]) :
    ∀ (l : List String), (joinStr sep l).data = joinChars c (l.map String.data) := by
  intro l
  induction l with
  | nil => simp [joinStr, joinChars]
  | cons s l' ih =>
    cases l' with
    | nil => simp [joinStr, joinChars]
    | cons t rest =>
      show (s ++ sep ++ joinStr sep (t :: rest)).data = _
      simp only [String.data_append, hs, ih]
      simp [joinChars]

theorem escapeCell_data (s : String) : (escapeCell s).data = escapeCellChars s.data := rfl

theorem csvRow_data (r : List String) :
    (csvRow r).data = joinChars ',' ((r.map String.data).map escapeCellChars) := by
  unfold csvRow
  rw [joinStr_data_single ',' "," rfl]
  simp [List.map_map, escapeCell_data, Function.comp_def]

theorem sq_rowblock (cells : List (List Char)) :
    ∀ (acc cs : List Char),
      splitQAgo '\n' false acc (joinChars ',' (cells.map escapeCellChars) ++ cs) =
        splitQAgo '\n' false ((joinChars ',' (cells.map escapeCellChars)).reverse ++ acc) cs := by
  induction cells with
  | nil => intro acc cs; simp [joinChars]
  | cons f rest ih =>
    intro acc cs
    cases rest with
    | nil =>
      show splitQAgo '\n' false acc (joinChars ',' [escapeCellChars f] ++ cs) = _
      simp only [joinChars]
      exact sq_cell '\n' f acc cs
    | cons f' rest' =>
      simp only [List.map_cons, joinChars]
      rw [List.append_assoc, sq_cell '\n' f, List.cons_append,
        sq_other_false '\n' ',' (by decide) (by decide)]
      simp only [List.map_cons, joinChars] at ih
      rw [ih]
      simp [List.reverse_append, List.reverse_cons, List.append_assoc]

theorem map_eq_self_of {α : Type} (l : List α) (f : α → α) (h : ∀ a ∈ l, f a = a) :
    l.map f = l := by
  induction l with
  | nil => rfl
  | cons a l' ih =>
    simp only [List.map_cons, h a (List.mem_cons_self a l'),
      ih (fun x hx => h x (List.mem_cons_of_mem a hx))]

theorem parseLine_csvRow (r : List String) (hr : r ≠ []) :
    parseLine ((csvRow r).data) = r := by
  unfold parseLine
  rw [csvRow_data]
  have hsplit : splitQAgo ',' false [] (joinChars ','
      ((r.map String.data).map escapeCellChars)) =
      (r.map String.data).map escapeCellChars := by
    apply sq_join ',' (by decide)
    · simp [hr]
    · intro b hb acc cs
      obtain ⟨l, _, rfl⟩ := List.mem_map.mp hb
      exact sq_cell ',' l acc cs
  rw [hsplit, List.map_map, List.map_map]
  apply map_eq_self_of
  intro s _
  simp only [Function.comp_apply]
  rw [parseCell_escape]

theorem parseDataRows_csvText (rows : List (List String))
    (hne : ∀ r ∈ rows, r ≠ []) : parseDataRows (csvText rows) = rows := by
  unfold parseDataRows csvText
  rw [joinStr_data_single '\n' "\n" rfl]
  have hsplit : splitQAgo '\n' false []
      (joinChars '\n' ((csvHeader :: rows.map csvRow).map String.data)) =
      (csvHeader :: rows.map csvRow).map String.data := by
    apply sq_join '\n' (by decide)
    · simp
    · intro b hb acc cs
      simp only [List.map_cons, List.mem_cons] at hb
      rcases hb with rfl | hb
      · exact sq_plain '\n' csvHeader.data (by decide) acc cs
      · obtain ⟨s, hs, rfl⟩ := List.mem_map.mp hb
        obtain ⟨r, _, rfl⟩ := List.mem_map.mp hs
        rw [csvRow_data]
        exact sq_rowblock (r.map String.data) acc cs
  rw [hsplit]
  simp only [List.map_cons, List.drop_succ_cons, List.drop_zero, List.map_map]
  apply map_eq_self_of
  intro r hr
  simp only [Function.comp_apply]
  exact parseLine_csvRow r (hne r hr)

theorem mem_insertDescBy (key : List String → Int) (r x : List String) :
    ∀ (l : List (List String)), x ∈ insertDescBy key r l ↔ x = r ∨ x ∈ l := by
  intro l
  induction l with
  | nil => simp [insertDescBy]
  | cons y ys ih =>
    simp only [insertDescBy]
    split
    · simp [List.mem_cons]
    · simp only [List.mem_cons, ih]
      tauto

theorem mem_sortRowsDesc (key : List String → Int) (x : List String) :
    ∀ (l : List (List String)), x ∈ sortRowsDesc key l ↔ x ∈ l := by
  intro l
  induction l with
  | nil => simp [sortRowsDesc]
  | cons y ys ih =>
    simp only [sortRowsDesc, List.foldr_cons] at *
    rw [mem_insertDescBy, ih]
    simp [List.mem_cons]

theorem exportRows_ne_nil (users : List UserRow) (visits : List VisitRow)
    (startT endT : Option Int) (disc : Option String) (search : Option String)
    (fmtTime : Int → String) (parseTime : String → Int) :
    ∀ r ∈ exportRows users visits startT endT disc search fmtTime parseTime, r ≠ [] := by
  intro r hr
  unfold exportRows at hr
  rw [mem_sortRowsDesc] at hr
  obtain ⟨v, _, heq⟩ := List.mem_filterMap.mp hr
  rcases hfind : users.find? (fun row => decide (row.id = v.user_id)) with _ | u
  · rw [hfind] at heq
    simp at heq
  · rw [hfind] at heq
    simp only at heq
    split at heq
    · simp only [Option.some.injEq] at heq
      rw [← heq]
      simp
    · simp at heq

/-- Claim C6: re-parsing the `exportToCSV` output — rows split on the line
separator taken outside double quotes, fields split on commas outside double
quotes, enclosing quotes stripped and doubled double quotes collapsed —
reconstructs, for every backing state, every filter combination and
arbitrary field contents, exactly the rows of five field values
(`fmtTime timestamp`, name, email, disciplines joined with `'; '`, reason)
from which the text was produced. -/
theorem exportToCSV_roundtrip (users : List UserRow) (visits : List VisitRow)
    (startT endT : Option Int) (disc : Option String) (search : Option String)
    (fmtTime : Int → String) (parseTime : String → Int) :
    parseDataRows (exportToCSV users visits startT endT disc search fmtTime parseTime) =
      exportRows users visits startT endT disc search fmtTime parseTime :=
  parseDataRows_csvText _
    (exportRows_ne_nil users visits startT endT disc search fmtTime parseTime)

end NewStadium
